import Mathlib

/-!
Verification of the push-to-talk dictation trigger state machine and its
downstream utterance pipeline, shallowly embedded from `src/dictate.py`.

Times are modelled as rationals (seconds), audio amplitudes as
rationals, audio frames as the 2-dimensional arrays delivered by the
sound-device callback: a frame is a list of samples, each sample a list
of channel values.  The module-level globals of the Python program
(`recording_flag`, `audio_q`) and the closure variables of `main`
(`pressed_time`, `last_tap_time`, `latched_on`) become the fields of a
single state record; each Python handler becomes a pure state
transformer.  The transcription engine (`model.transcribe`) is an
external collaborator modelled as a function returning `Option`
(`none` = the engine raised an exception).  Text is modelled as
`List Char`; the regular-expression substitutions of the formatting
helpers are embedded by a small matcher specialised to the exact
pattern shapes appearing in the source (case-insensitive literals,
`\s+`, `\s*`, `x+`, a two-word alternation, with word boundaries at
both ends of every pattern).
-/

/-- `SAMPLE_RATE = 16000` from the source. -/
def SAMPLE_RATE : ℚ := 16000

/-- `MIN_SPEECH_SECS = 1.0` from the source (default value; the state
machine functions take the gate as a configuration field). -/
def MIN_SPEECH_SECS : ℚ := 1

/-- `DOUBLE_TAP_WINDOW` default `0.35` from the source. -/
def DOUBLE_TAP_WINDOW : ℚ := 7/20

/- ----------------------------------------------------------------
Character classes used by the Python regexes (ASCII model).
---------------------------------------------------------------- -/

/-- Python `\s` (ASCII): space, tab, newline, carriage return, vertical
tab, form feed. -/
def pySpace (c : Char) : Bool :=
  c == ' ' || c == '\t' || c == '\n' || c == '\r' || c == '\x0b' || c == '\x0c'

/-- The punctuation class `[,.;!?]` of `_normalize_whitespace`. -/
def isPunct (c : Char) : Bool :=
  c == ',' || c == '.' || c == ';' || c == '!' || c == '?'

/-- Python `\w` (ASCII): letters, digits, underscore. -/
def isWordChar (c : Char) : Bool :=
  c.isAlpha || c.isDigit || c == '_'

/-- Case-insensitive character comparison (`re.IGNORECASE`). -/
def lowerEq (a b : Char) : Bool := a.toLower == b.toLower

/- ----------------------------------------------------------------
`_normalize_whitespace`
---------------------------------------------------------------- -/

/-- Worker for `re.sub(r"\s+", " ", text)`: each maximal run of
whitespace becomes a single space.  `prev` records whether the previous
input character was whitespace (i.e. whether we are inside a run whose
single output space has already been emitted). -/
def collapseWSAux (prev : Bool) : List Char → List Char
  | [] => []
  | c :: rest =>
    if pySpace c then
      if prev then collapseWSAux true rest else ' ' :: collapseWSAux true rest
    else c :: collapseWSAux false rest

/-- `re.sub(r"\s+", " ", text)`. -/
def collapseWS (l : List Char) : List Char := collapseWSAux false l

/-- Python `str.strip()`: drop whitespace from both ends. -/
def pyStrip (l : List Char) : List Char :=
  ((l.dropWhile pySpace).reverse.dropWhile pySpace).reverse

/-- Worker for `re.sub(r"\s+([,.;!?])", r"\1", text)`: a run of
whitespace immediately followed by a punctuation character is replaced
by the punctuation alone.  `pend` holds the whitespace run read so far
but not yet emitted. -/
def squashAux (pend : List Char) : List Char → List Char
  | [] => pend
  | c :: rest =>
    if pySpace c then squashAux (pend ++ [c]) rest
    else if isPunct c then c :: squashAux [] rest
    else pend ++ c :: squashAux [] rest

/-- `re.sub(r"\s+([,.;!?])", r"\1", text)`. -/
def squashWSPunct (l : List Char) : List Char := squashAux [] l

/-- `_normalize_whitespace`: collapse whitespace runs to single spaces,
strip the ends, then delete whitespace before `[,.;!?]`. -/
def normalize_whitespace (l : List Char) : List Char :=
  squashWSPunct (pyStrip (collapseWS l))

/- ----------------------------------------------------------------
A matcher for the regex substitutions of `_apply_spoken_commands` and
`_remove_fillers`.  Every pattern in the source is a `\b...\b`-delimited
sequence of case-insensitive literals, `\s+`/`\s*` gaps, a greedy
one-or-more character repetition, or a two-word alternation; for these
shapes greedy matching without backtracking coincides with Python's
semantics (backtracking a greedy `\s+`/`x+` can never turn a failed
continuation into a success, because the continuation never starts with
the repeated class).
---------------------------------------------------------------- -/

/-- One token of a source regex. -/
inductive RTok
  | lit (c : Char)
  | plus (c : Char)
  | gap (required : Bool)
  | alt2 (a b : List Char)
  deriving DecidableEq, Repr

/-- Case-insensitive literal-word match; returns the number of
characters consumed. -/
def matchLits : List Char → List Char → Option ℕ
  | [], _ => some 0
  | _ :: _, [] => none
  | c :: cs, x :: xs =>
    if lowerEq c x then (matchLits cs xs).map (· + 1) else none

/-- Length of the maximal prefix satisfying `p`. -/
def countWhile (p : Char → Bool) (l : List Char) : ℕ :=
  (l.takeWhile p).length

/-- Greedy token-list matcher; returns the number of characters
consumed. -/
def matchToks : List RTok → List Char → Option ℕ
  | [], _ => some 0
  | RTok.lit c :: ts, xs =>
    match xs with
    | [] => none
    | x :: rest => if lowerEq c x then (matchToks ts rest).map (· + 1) else none
  | RTok.plus c :: ts, xs =>
    let n := countWhile (lowerEq c) xs
    if n = 0 then none else (matchToks ts (xs.drop n)).map (· + n)
  | RTok.gap req :: ts, xs =>
    let n := countWhile pySpace xs
    if req ∧ n = 0 then none else (matchToks ts (xs.drop n)).map (· + n)
  | RTok.alt2 a b :: ts, xs =>
    match matchLits a xs with
    | some n => (matchToks ts (xs.drop n)).map (· + n)
    | none =>
      match matchLits b xs with
      | some n => (matchToks ts (xs.drop n)).map (· + n)
      | none => none

/-- The trailing `\b` of a pattern: the next character (if any) is not a
word character.  (Every source pattern ends in a word character.) -/
def boundaryAfter : List Char → Bool
  | [] => true
  | c :: _ => !isWordChar c

/-- Worker for `re.sub(pattern, rep, text)`: scan left to right,
replacing non-overlapping matches.  `skip` counts characters of a match
still to be consumed after its replacement has been emitted; `prev` is
the previous character of the *original* text (for the leading `\b`;
every source pattern starts with a word character, so the boundary holds
iff `prev` is absent or a non-word character). -/
def subAux (toks : List RTok) (rep : List Char) : ℕ → Option Char → List Char → List Char
  | _, _, [] => []
  | Nat.succ k, _, x :: xs => subAux toks rep k (some x) xs
  | 0, prev, x :: xs =>
    let bOK : Bool := match prev with
      | none => true
      | some p => !isWordChar p
    if bOK then
      match matchToks toks (x :: xs) with
      | some n =>
        if n = 0 then x :: subAux toks rep 0 (some x) xs
        else if boundaryAfter (List.drop n (x :: xs)) then
          rep ++ subAux toks rep (n - 1) (some x) xs
        else x :: subAux toks rep 0 (some x) xs
      | none => x :: subAux toks rep 0 (some x) xs
    else x :: subAux toks rep 0 (some x) xs

/-- `re.sub` for one `\b`-delimited pattern. -/
def subPattern (toks : List RTok) (rep : List Char) (l : List Char) : List Char :=
  subAux toks rep 0 none l

/-- Fold a pattern/replacement list over the text, in order (the `for`
loops of `_apply_spoken_commands` and `_remove_fillers`). -/
def applyPairs : List (List RTok × List Char) → List Char → List Char
  | [], l => l
  | (p, r) :: rest, l => applyPairs rest (subPattern p r l)

/-- Case-insensitive literal tokens for a word. -/
def lits (s : List Char) : List RTok := s.map RTok.lit

/-- The replacement table of `_apply_spoken_commands`, in source
order. -/
def spokenPairs : List (List RTok × List Char) :=
  [ (lits ("new".data) ++ [RTok.gap true] ++ lits ("line".data), ("\n").data),
    (lits ("newline".data), ("\n").data),
    (lits ("new".data) ++ [RTok.gap true] ++ lits ("paragraph".data), ("\n\n").data),
    (lits ("next".data) ++ [RTok.gap true] ++ lits ("paragraph".data), ("\n\n").data),
    (lits ("period".data), (".").data),
    (lits ("full".data) ++ [RTok.gap false] ++ lits ("stop".data), (".").data),
    (lits ("comma".data), (",").data),
    (lits ("question".data) ++ [RTok.gap false] ++ lits ("mark".data), ("?").data),
    (lits ("exclamation".data) ++ [RTok.gap false] ++
      [RTok.alt2 ("point".data) ("mark".data)], ("!").data),
    (lits ("colon".data), (":").data),
    (lits ("semicolon".data), (";").data),
    (lits ("open".data) ++ [RTok.gap true] ++ lits ("quote".data), (" \"").data),
    (lits ("close".data) ++ [RTok.gap true] ++ lits ("quote".data), ("\" ").data) ]

/-- `_apply_spoken_commands`. -/
def apply_spoken_commands (l : List Char) : List Char :=
  applyPairs spokenPairs l

/-- The filler patterns of `_remove_fillers`, in source order; the
replacement is always empty. -/
def fillerPairs : List (List RTok × List Char) :=
  [ ([RTok.lit 'u', RTok.plus 'h'], []),
    ([RTok.lit 'u', RTok.plus 'm'], []),
    ([RTok.lit 'm', RTok.plus 'm'], []),
    ([RTok.lit 'm', RTok.lit 'm', RTok.plus 'm'], []),
    ([RTok.lit 'e', RTok.plus 'h'], []),
    ([RTok.lit 'a', RTok.plus 'h'], []),
    (lits ("uh-huh".data), []),
    (lits ("um-hmm".data), []) ]

/-- Scanner state for `re.sub(r"\s{2,}", " ", out)`: either scanning
normally, holding one not-yet-emitted whitespace character, or skipping
the rest of a run already replaced by a single space. -/
inductive C2State
  | norm
  | pending (w : Char)
  | skipRun
  deriving DecidableEq, Repr

/-- Worker for `re.sub(r"\s{2,}", " ", out)`: runs of two or more
whitespace characters become one space; a single whitespace character is
kept as it is. -/
def collapse2Aux : C2State → List Char → List Char
  | .norm, [] => []
  | .pending w, [] => [w]
  | .skipRun, [] => []
  | .norm, c :: rest =>
    if pySpace c then collapse2Aux (.pending c) rest else c :: collapse2Aux .norm rest
  | .pending w, c :: rest =>
    if pySpace c then ' ' :: collapse2Aux .skipRun rest
    else w :: c :: collapse2Aux .norm rest
  | .skipRun, c :: rest =>
    if pySpace c then collapse2Aux .skipRun rest else c :: collapse2Aux .norm rest

/-- `re.sub(r"\s{2,}", " ", out)`. -/
def collapse2WS (l : List Char) : List Char := collapse2Aux .norm l

/-- `_remove_fillers`: delete the filler words, collapse leftover double
spaces, strip. -/
def remove_fillers (l : List Char) : List Char :=
  pyStrip (collapse2WS (applyPairs fillerPairs l))

/- ----------------------------------------------------------------
`_auto_paragraph`
---------------------------------------------------------------- -/

/-- Python `"\n\n" in text`: the text contains two consecutive
newlines. -/
def hasDoubleNL : List Char → Bool
  | [] => false
  | [_] => false
  | c :: d :: rest => ((c == '\n') && (d == '\n')) || hasDoubleNL (d :: rest)

/-- Worker for `re.split(r"(?<=[.!?])\s+", text)`: split at each
whitespace run whose preceding character is `.`, `!` or `?`.  `cur` is
the current piece reversed; `skipping` is set while consuming the
remainder of a delimiter run. -/
def sentSplitAux (skipping : Bool) (cur : List Char) : List Char → List (List Char)
  | [] => [cur.reverse]
  | c :: rest =>
    if skipping && pySpace c then sentSplitAux true cur rest
    else if pySpace c &&
        (match cur with
          | p :: _ => p == '.' || p == '!' || p == '?'
          | [] => false) then
      cur.reverse :: sentSplitAux true [] rest
    else sentSplitAux false (c :: cur) rest

/-- `re.split(r"(?<=[.!?])\s+", text)`. -/
def sentSplit (l : List Char) : List (List Char) := sentSplitAux false [] l

/-- `sentences = [s.strip() for s in re.split(...) if s.strip()]`. -/
def sentencesOf (l : List Char) : List (List Char) :=
  ((sentSplit l).map pyStrip).filter (fun s => s ≠ [])

/-- The grouping loop of `_auto_paragraph`: append sentences to `buf`,
flush a paragraph when the buffer reaches 3 sentences or the character
count exceeds 240. -/
def groupAux (buf : List (List Char)) (cnt : ℕ) : List (List Char) → List (List (List Char))
  | [] => if buf = [] then [] else [buf]
  | s :: rest =>
    let buf2 := buf ++ [s]
    let cnt2 := cnt + s.length
    if 3 ≤ buf2.length ∨ 240 < cnt2 then buf2 :: groupAux [] 0 rest
    else groupAux buf2 cnt2 rest

/-- The sentence groups of `_auto_paragraph`. -/
def groupSentences (sentences : List (List Char)) : List (List (List Char)) :=
  groupAux [] 0 sentences

/-- `_auto_paragraph`: keep text that already has an explicit blank
line; otherwise split into sentences, group them, join groups with
spaces and separate paragraphs by blank lines. -/
def auto_paragraph (l : List Char) : List Char :=
  if hasDoubleNL l then l
  else if sentencesOf l = [] then l
  else
    List.intercalate ('\n' :: '\n' :: [])
      ((groupSentences (sentencesOf l)).map (List.intercalate [' ']))

/-- `format_transcript`: empty text passes through; otherwise spoken
commands, filler removal, whitespace normalization, paragraph grouping,
in that order. -/
def format_transcript (l : List Char) : List Char :=
  if l = [] then []
  else auto_paragraph (normalize_whitespace (remove_fillers (apply_spoken_commands l)))

/-- The text reaching `_auto_paragraph` inside `format_transcript`: the
transcript after spoken commands, filler removal and whitespace
normalization. -/
def normText (l : List Char) : List Char :=
  normalize_whitespace (remove_fillers (apply_spoken_commands l))

/-- The paragraph list `_auto_paragraph` joins with blank lines when
given newline-free input (the fallback cases of empty sentence lists
yield the single paragraph equal to the input itself). -/
def paragraphsOf (l : List Char) : List (List Char) :=
  if sentencesOf l = [] then [l]
  else (groupSentences (sentencesOf l)).map (List.intercalate [' '])

/- ----------------------------------------------------------------
Paste-sink application filter
---------------------------------------------------------------- -/

/-- `_parse_app_list`: split the raw value on commas, strip each entry,
drop empty entries; the empty string yields the empty list.  (Strings
are modelled as character lists; Python's `split(",")` splits on the
single comma character.) -/
def parse_app_list (raw : List Char) : List (List Char) :=
  if raw = [] then []
  else ((List.splitOn ',' raw).map pyStrip).filter (fun s => s ≠ [])

/-- `_is_front_app_allowed`, parametrised by the frontmost-application
name and the raw `WILLOW_ALLOW_APPS` / `WILLOW_DENY_APPS` values. -/
def is_front_app_allowed (name allowRaw denyRaw : List Char) : Bool :=
  let allow := parse_app_list allowRaw
  let deny := parse_app_list denyRaw
  if name = [] then true
  else if !allow.isEmpty then allow.contains name
  else if !deny.isEmpty then !(deny.contains name)
  else true

/- ----------------------------------------------------------------
The trigger state machine
---------------------------------------------------------------- -/

/-- An audio frame as delivered by the sound-device callback: a block of
samples, each sample a list of channel values (`indata` is always a
2-dimensional `(frames, channels)` array). -/
abbrev Frame := List (List ℚ)

/-- The transcription engine: given the mono pcm array it either returns
the list of segment texts or fails (`none` models a raised
exception). -/
abbrev Engine := List ℚ → Option (List (List Char))

/-- The mutable state of `dictate.py`: the globals `recording_flag` and
`audio_q` plus the `main` closure variables `pressed_time`,
`last_tap_time` and `latched_on`. -/
structure St where
  recording : Bool
  latched_on : Bool
  last_tap_time : ℚ
  pressed_time : ℚ
  audio_q : List Frame
  deriving DecidableEq, Repr

/-- The configuration knobs read from the environment:
`DOUBLE_TAP_ENABLED`, `DOUBLE_TAP_WINDOW` and the minimum-hold gate
`MIN_SPEECH_SECS`. -/
structure Cfg where
  double_tap_enabled : Bool
  double_tap_window : ℚ
  min_speech_secs : ℚ
  deriving DecidableEq, Repr

/-- The defaults of the source: double-tap on, 0.35 s window, 1.0 s
minimum hold. -/
def defaultCfg : Cfg := ⟨true, DOUBLE_TAP_WINDOW, MIN_SPEECH_SECS⟩

/-- The program's start state: flag clear, no latch, zeroed timestamps,
empty queue. -/
def initSt : St := ⟨false, false, 0, 0, []⟩

/-- `audio_callback`: while `recording_flag` is set, arriving frames are
appended to `audio_q`; otherwise they are dropped. -/
def audio_callback (f : Frame) (s : St) : St :=
  if s.recording then { s with audio_q := s.audio_q ++ [f] } else s

/-- `_start_recording`: empty the queue, set `recording_flag`, record
`pressed_time = now` (the start-sound side effect is external). -/
def start_recording (now : ℚ) (s : St) : St :=
  { s with audio_q := [], recording := true, pressed_time := now }

/-- The assembly step of `_stop_and_transcribe` (lines 310-316):
`np.concatenate(chunks, axis=0)`, then channel reduction — mean over
axis 1 when the array has more than one column, else take column 0 —
then flatten to a 1-dimensional float array. -/
def assembleAudio (chunks : List Frame) : List ℚ :=
  let rows := chunks.flatten
  let channels := (rows.headD []).length
  if 1 < channels then rows.map (fun r => r.sum / (r.length : ℚ))
  else rows.map (fun r => r.headD 0)

/-- `transcribe_buffer`: empty input yields the empty transcript; audio
shorter than `0.8` s yields the empty transcript; an engine exception is
caught and yields the empty transcript; otherwise join the stripped
segment texts with single spaces and strip. -/
def transcribe_buffer (engine : Engine) (pcm : List ℚ) : List Char :=
  if pcm = [] then []
  else if (pcm.length : ℚ) / SAMPLE_RATE < 4/5 then []
  else
    match engine pcm with
    | none => []
    | some segs => pyStrip (List.intercalate [' '] (segs.map pyStrip))

/-- The emission of one stop: the mono audio array handed to
`transcribe_buffer` together with the formatted text passed to the paste
sink. -/
abbrev Out := List ℚ × List Char

/-- `_stop_and_transcribe`: clear the flag; return early when the hold
was shorter than the minimum (the queue is left untouched); otherwise
drain the queue; return when nothing was captured; assemble, gate on
0.8 s of actual audio, transcribe (exceptions caught as empty text),
format.  The second component records the processed utterance, `none`
when no utterance was emitted. -/
def stop_and_transcribe (cfg : Cfg) (engine : Engine) (now : ℚ) (s : St) : St × Option Out :=
  let s1 : St := { s with recording := false }
  if now - s1.pressed_time < cfg.min_speech_secs then (s1, none)
  else
    let chunks := s1.audio_q
    let s2 : St := { s1 with audio_q := [] }
    if chunks = [] then (s2, none)
    else
      let audio := assembleAudio chunks
      if (audio.length : ℚ) / SAMPLE_RATE < 4/5 then (s2, none)
      else
        let raw := transcribe_buffer engine audio
        (s2, some (audio, format_transcript raw))

/-- `on_press` for the hotkey: a press within the double-tap window of
`last_tap_time` (when double-tap is enabled) toggles the latch after
zeroing `last_tap_time`, starting or stopping as the code does;
otherwise it records `last_tap_time = now` and arms the buffer when not
already recording. -/
def on_press (cfg : Cfg) (engine : Engine) (now : ℚ) (s : St) : St × Option Out :=
  if cfg.double_tap_enabled ∧ now - s.last_tap_time ≤ cfg.double_tap_window then
    let s1 : St := { s with last_tap_time := 0, latched_on := !s.latched_on }
    if s1.latched_on ∧ ¬s1.recording then (start_recording now s1, none)
    else if ¬s1.latched_on ∧ s1.recording then stop_and_transcribe cfg engine now s1
    else (s1, none)
  else
    let s1 : St := { s with last_tap_time := now }
    if ¬s1.recording then (start_recording now s1, none) else (s1, none)

/-- `on_release` for the hotkey: only acts while the flag is set; in
latched mode the release does nothing, otherwise it stops and
transcribes. -/
def on_release (cfg : Cfg) (engine : Engine) (now : ℚ) (s : St) : St × Option Out :=
  if s.recording then
    if s.latched_on then (s, none) else stop_and_transcribe cfg engine now s
  else (s, none)

/-- An externally observable event: a hotkey press or release at a given
time, or an audio frame arriving on the callback thread. -/
inductive Ev
  | keyDown (t : ℚ)
  | keyUp (t : ℚ)
  | frame (f : Frame)
  deriving DecidableEq, Repr

/-- One event step of the program. -/
def stepEv (cfg : Cfg) (engine : Engine) (s : St) : Ev → St × Option Out
  | .keyDown t => on_press cfg engine t s
  | .keyUp t => on_release cfg engine t s
  | .frame f => (audio_callback f s, none)

/-- Run a sequence of events, collecting the emitted utterances in
order. -/
def runEvents (cfg : Cfg) (engine : Engine) (s : St) : List Ev → St × List Out
  | [] => (s, [])
  | e :: rest =>
    let r1 := stepEv cfg engine s e
    let r2 := runEvents cfg engine r1.1 rest
    (r2.1, r1.2.toList ++ r2.2)

/-- An engine that always fails (raises). -/
def engineNone : Engine := fun _ => none

/- ----------------------------------------------------------------
Shared helper lemmas
---------------------------------------------------------------- -/

/-- While the flag is set, a burst of frames on the callback thread
appends to the queue in arrival order and changes nothing else. -/
theorem foldl_audio_callback (frames : List Frame) (s : St) (h : s.recording = true) :
    frames.foldl (fun st f => audio_callback f st) s =
      { s with audio_q := s.audio_q ++ frames } := by
  induction frames generalizing s with
  | nil => simp
  | cons f fs ih =>
    simp only [List.foldl_cons]
    rw [show audio_callback f s = { s with audio_q := s.audio_q ++ [f] } by
      simp [audio_callback, h]]
    rw [ih _ (by simp [h])]
    simp

/-- `_stop_and_transcribe` clears the flag and touches no other control
field of the state. -/
theorem stop_state_fields (cfg : Cfg) (engine : Engine) (now : ℚ) (s : St) :
    (stop_and_transcribe cfg engine now s).1.recording = false ∧
    (stop_and_transcribe cfg engine now s).1.latched_on = s.latched_on ∧
    (stop_and_transcribe cfg engine now s).1.last_tap_time = s.last_tap_time ∧
    (stop_and_transcribe cfg engine now s).1.pressed_time = s.pressed_time := by
  simp only [stop_and_transcribe]
  split_ifs <;> simp

/-- A hold shorter than the minimum returns before draining: only the
flag changes. -/
theorem stop_none_of_short (cfg : Cfg) (engine : Engine) (now : ℚ) (s : St)
    (h : now - s.pressed_time < cfg.min_speech_secs) :
    stop_and_transcribe cfg engine now s = ({ s with recording := false }, none) := by
  simp only [stop_and_transcribe]
  rw [if_pos (by simpa using h)]

/-- Once past the minimum-hold gate the queue is always drained. -/
theorem stop_drains (cfg : Cfg) (engine : Engine) (now : ℚ) (s : St)
    (h : ¬(now - s.pressed_time < cfg.min_speech_secs)) :
    (stop_and_transcribe cfg engine now s).1.audio_q = [] := by
  simp only [stop_and_transcribe]
  rw [if_neg (by simpa using h)]
  split_ifs <;> simp

/-- A press that is not (treated as) a double-tap, while not recording:
plain hold-to-talk start after the bookkeeping update. -/
theorem on_press_fresh_start (cfg : Cfg) (engine : Engine) (now : ℚ) (s : St)
    (hcond : ¬(cfg.double_tap_enabled = true ∧ now - s.last_tap_time ≤ cfg.double_tap_window))
    (hrec : s.recording = false) :
    on_press cfg engine now s = (start_recording now { s with last_tap_time := now }, none) := by
  simp only [on_press]
  rw [if_neg (by simpa using hcond)]
  simp [hrec]

/-- A press that is not (treated as) a double-tap, while recording: pure
bookkeeping, nothing else changes. -/
theorem on_press_fresh_ignored (cfg : Cfg) (engine : Engine) (now : ℚ) (s : St)
    (hcond : ¬(cfg.double_tap_enabled = true ∧ now - s.last_tap_time ≤ cfg.double_tap_window))
    (hrec : s.recording = true) :
    on_press cfg engine now s = ({ s with last_tap_time := now }, none) := by
  simp only [on_press]
  rw [if_neg (by simpa using hcond)]
  simp [hrec]

/-- A press inside the double-tap window while recording unlatched:
latch toggles on, recording simply continues. -/
theorem on_press_tap_latches (cfg : Cfg) (engine : Engine) (now : ℚ) (s : St)
    (hcond : cfg.double_tap_enabled = true ∧ now - s.last_tap_time ≤ cfg.double_tap_window)
    (hrec : s.recording = true) (hlat : s.latched_on = false) :
    on_press cfg engine now s =
      ({ s with last_tap_time := 0, latched_on := true }, none) := by
  simp only [on_press]
  rw [if_pos (by simpa using hcond)]
  simp [hrec, hlat]

/-- A press inside the double-tap window while latched: latch toggles
off and the stop path runs on the unlatched state. -/
theorem on_press_tap_unlatches (cfg : Cfg) (engine : Engine) (now : ℚ) (s : St)
    (hcond : cfg.double_tap_enabled = true ∧ now - s.last_tap_time ≤ cfg.double_tap_window)
    (hrec : s.recording = true) (hlat : s.latched_on = true) :
    on_press cfg engine now s =
      stop_and_transcribe cfg engine now
        { s with last_tap_time := 0, latched_on := false } := by
  simp only [on_press]
  rw [if_pos (by simpa using hcond)]
  simp [hrec, hlat]

/-- A release while recording and not latched runs the stop path. -/
theorem on_release_stops (cfg : Cfg) (engine : Engine) (now : ℚ) (s : St)
    (hrec : s.recording = true) (hlat : s.latched_on = false) :
    on_release cfg engine now s = stop_and_transcribe cfg engine now s := by
  simp [on_release, hrec, hlat]

/-- A release while latched is a no-op. -/
theorem on_release_latched_noop (cfg : Cfg) (engine : Engine) (now : ℚ) (s : St)
    (hlat : s.latched_on = true) :
    on_release cfg engine now s = (s, none) := by
  simp only [on_release, hlat]
  split_ifs <;> simp

/- ----------------------------------------------------------------
C6 — arming clears then activates
---------------------------------------------------------------- -/

/-- C6: for every prior buffer content, arming the buffer
(`_start_recording`) first removes all residual frames and then sets the
active flag, so immediately after arming the buffer is empty and active;
calling it while already armed still clears (idempotent clear). -/
theorem c6_arm_clears_and_activates (s : St) (now : ℚ) :
    (start_recording now s).audio_q = [] ∧ (start_recording now s).recording = true :=
  ⟨rfl, rfl⟩

/- ----------------------------------------------------------------
C1 — short hold gesture
---------------------------------------------------------------- -/

/-- C1 counterexample: a hold gesture KeyDown at t = 10, one captured
frame, KeyUp at t = 10.5 (0.5 s < the 1.0 s minimum) emits no utterance,
but the captured frame is *not* discarded: `_stop_and_transcribe`
returns before draining, so the queue still holds the frame and is not
left empty, contrary to the claim. -/
theorem c1_counterexample :
    (runEvents defaultCfg engineNone initSt
        [Ev.keyDown 10, Ev.frame [[1]], Ev.keyUp (21/2)]).2 = [] ∧
    (runEvents defaultCfg engineNone initSt
        [Ev.keyDown 10, Ev.frame [[1]], Ev.keyUp (21/2)]).1.audio_q = [[[1]]] ∧
    [[[(1:ℚ)]]] ≠ ([] : List Frame) := by
  refine ⟨?_, ?_, by simp⟩ <;>
    norm_num [runEvents, stepEv, on_press, on_release, stop_and_transcribe, start_recording,
      audio_callback, defaultCfg, DOUBLE_TAP_WINDOW, MIN_SPEECH_SECS, initSt]

/-- C1 (amended): for every hold gesture (KeyDown while idle that is not
a double-tap, frames captured, KeyUp while recording and not latched)
shorter than the minimum hold, the handlers emit zero utterances and
make no transcription call, and the recording flag is cleared; the
captured frames are *not* discarded at stop time — they remain in the
now-inactive queue — and are discarded by the clear performed at the
next arm, so the next gesture still starts with an empty buffer. -/
theorem c1_short_hold_no_utterance (cfg : Cfg) (engine : Engine) (s : St) (t0 t1 : ℚ)
    (frames : List Frame)
    (hrec : s.recording = false) (hlat : s.latched_on = false)
    (hfresh : cfg.double_tap_enabled = false ∨ cfg.double_tap_window < t0 - s.last_tap_time)
    (hshort : t1 - t0 < cfg.min_speech_secs) :
    (on_press cfg engine t0 s).2 = none ∧
    (on_release cfg engine t1
        (frames.foldl (fun st f => audio_callback f st) (on_press cfg engine t0 s).1)).2 =
      none ∧
    (on_release cfg engine t1
        (frames.foldl (fun st f => audio_callback f st) (on_press cfg engine t0 s).1)).1.recording =
      false ∧
    (on_release cfg engine t1
        (frames.foldl (fun st f => audio_callback f st) (on_press cfg engine t0 s).1)).1.audio_q =
      frames ∧
    ∀ t2, (start_recording t2
        (on_release cfg engine t1
          (frames.foldl (fun st f => audio_callback f st) (on_press cfg engine t0 s).1)).1).audio_q =
      [] := by
  have hcond : ¬(cfg.double_tap_enabled = true ∧ t0 - s.last_tap_time ≤ cfg.double_tap_window) := by
    rcases hfresh with h | h
    · simp [h]
    · rintro ⟨-, h2⟩
      exact absurd h2 (not_le.mpr h)
  rw [on_press_fresh_start cfg engine t0 s hcond hrec]
  have hfold : frames.foldl (fun st f => audio_callback f st)
        (start_recording t0 { s with last_tap_time := t0 }) =
      { s with last_tap_time := t0, audio_q := frames, recording := true,
               pressed_time := t0 } := by
    rw [foldl_audio_callback _ _ (by simp [start_recording])]
    simp [start_recording]
  rw [hfold]
  rw [on_release_stops cfg engine t1 _ rfl (by simp [hlat])]
  rw [stop_none_of_short cfg engine t1 _ (by simpa using hshort)]
  refine ⟨rfl, rfl, rfl, rfl, fun t2 => rfl⟩

/-- C1 witness: the amended theorem at the concrete run of the
counterexample (press at 10, one frame, release at 10.5). -/
theorem c1_short_hold_no_utterance_witness :
    ((21:ℚ)/2 - 10 < 1) ∧
    (on_release defaultCfg engineNone (21/2)
        ([[[1]]].foldl (fun st f => audio_callback f st)
          (on_press defaultCfg engineNone 10 initSt).1)).1.audio_q = [[[1]]] ∧
    (start_recording 42
        (on_release defaultCfg engineNone (21/2)
          ([[[1]]].foldl (fun st f => audio_callback f st)
            (on_press defaultCfg engineNone 10 initSt).1)).1).audio_q = [] := by
  have h := c1_short_hold_no_utterance defaultCfg engineNone initSt 10 (21/2) [[[1]]]
    rfl rfl
    (Or.inr (by norm_num [defaultCfg, DOUBLE_TAP_WINDOW, initSt]))
    (by norm_num [defaultCfg, MIN_SPEECH_SECS])
  exact ⟨by norm_num, h.2.2.2.1, h.2.2.2.2 42⟩

/- ----------------------------------------------------------------
C2 — press while latched
---------------------------------------------------------------- -/

/-- C2 counterexample: latch on via presses at t = 10 and t = 10.2 (the
tap that most recently toggled latch is at 10.2); a further press at
t = 10.4 is within the 0.35 s double-tap window of that toggling tap,
yet the machine does not stop: it stays latched and recording, because
the code compares against `last_tap_time`, which the toggle reset to 0.
The claim's "if and only if t is within the double-tap window of the tap
that most recently toggled latch" is therefore false. -/
theorem c2_counterexample :
    ((52:ℚ)/5 - 51/5 ≤ 7/20) ∧
    (runEvents defaultCfg engineNone initSt
        [Ev.keyDown 10, Ev.keyDown (51/5), Ev.keyDown (52/5)]).1.latched_on = true ∧
    (runEvents defaultCfg engineNone initSt
        [Ev.keyDown 10, Ev.keyDown (51/5), Ev.keyDown (52/5)]).1.recording = true ∧
    (runEvents defaultCfg engineNone initSt
        [Ev.keyDown 10, Ev.keyDown (51/5), Ev.keyDown (52/5)]).2 = [] := by
  refine ⟨by norm_num, ?_, ?_, ?_⟩ <;>
    norm_num [runEvents, stepEv, on_press, on_release, stop_and_transcribe, start_recording,
      audio_callback, defaultCfg, DOUBLE_TAP_WINDOW, MIN_SPEECH_SECS, initSt]

/-- C2 (amended): while Latched, a further KeyDown at time t disarms the
buffer, runs the stop path and transitions to Idle if and only if t is
within the double-tap window of the `lastTapTime` bookkeeping value —
which is reset to 0 by the tap that toggled latch and is updated by
subsequent presses while latched — not of the toggling tap itself; a
press outside that window causes no stop and no state change except
setting `lastTapTime` to t. -/
theorem c2_latched_press (cfg : Cfg) (engine : Engine) (t : ℚ) (s : St)
    (hen : cfg.double_tap_enabled = true) (hlat : s.latched_on = true)
    (hrec : s.recording = true) :
    (t - s.last_tap_time ≤ cfg.double_tap_window →
      on_press cfg engine t s =
          stop_and_transcribe cfg engine t
            { s with last_tap_time := 0, latched_on := false } ∧
        (on_press cfg engine t s).1.latched_on = false ∧
        (on_press cfg engine t s).1.recording = false) ∧
    (¬(t - s.last_tap_time ≤ cfg.double_tap_window) →
      on_press cfg engine t s = ({ s with last_tap_time := t }, none)) := by
  constructor
  · intro hw
    have hp := on_press_tap_unlatches cfg engine t s ⟨hen, hw⟩ hrec hlat
    refine ⟨hp, ?_, ?_⟩
    · rw [hp]
      exact (stop_state_fields cfg engine t _).2.1
    · rw [hp]
      exact (stop_state_fields cfg engine t _).1
  · intro hw
    exact on_press_fresh_ignored cfg engine t s (by simp [hw]) hrec

/-- C2 witness: the amended theorem at a latched state with
`last_tap_time = 10` — a press at 10.2 (inside the window) stops; a
press at 11 (outside) only updates the bookkeeping. -/
theorem c2_latched_press_witness :
    ((51:ℚ)/5 - 10 ≤ 7/20) ∧
    (on_press defaultCfg engineNone (51/5) ⟨true, true, 10, 9, []⟩).1.latched_on = false ∧
    (on_press defaultCfg engineNone (51/5) ⟨true, true, 10, 9, []⟩).1.recording = false ∧
    on_press defaultCfg engineNone 11 ⟨true, true, 10, 9, []⟩ =
      (⟨true, true, 11, 9, []⟩, none) := by
  have h1 := (c2_latched_press defaultCfg engineNone (51/5) ⟨true, true, 10, 9, []⟩
    rfl rfl rfl).1 (by norm_num [defaultCfg, DOUBLE_TAP_WINDOW])
  have h2 := (c2_latched_press defaultCfg engineNone 11 ⟨true, true, 10, 9, []⟩
    rfl rfl rfl).2 (by norm_num [defaultCfg, DOUBLE_TAP_WINDOW])
  exact ⟨by norm_num, h1.2.1, h1.2.2, h2⟩

/- ----------------------------------------------------------------
C3 — KeyDown while Recording
---------------------------------------------------------------- -/

/-- C3 counterexample: press at t = 10 enters Recording; a key-repeat
KeyDown at t = 10.2 arrives while Recording, within the 0.35 s window of
the first press, and the machine transitions to Latched — the claim that
every KeyDown while Recording is ignored and never latches is false. -/
theorem c3_counterexample :
    ((51:ℚ)/5 - 10 ≤ 7/20) ∧
    (runEvents defaultCfg engineNone initSt
        [Ev.keyDown 10, Ev.keyDown (51/5)]).1.latched_on = true := by
  refine ⟨by norm_num, ?_⟩
  norm_num [runEvents, stepEv, on_press, start_recording, defaultCfg, DOUBLE_TAP_WINDOW,
    initSt]

/-- C3 (amended): a KeyDown of the hotkey while Recording (not latched)
is ignored — no re-arm, no change to the recording flag, `armTime` or
the buffer, and no transition to Latched — exactly when it falls outside
the double-tap window of `lastTapTime` (or double-tap is disabled); the
only effect is the `lastTapTime` bookkeeping update.  (A KeyDown inside
the window is treated as a double-tap and toggles into Latched, as the
counterexample shows.) -/
theorem c3_repeat_ignored (cfg : Cfg) (engine : Engine) (t : ℚ) (s : St)
    (hrec : s.recording = true)
    (h : cfg.double_tap_enabled = false ∨ cfg.double_tap_window < t - s.last_tap_time) :
    on_press cfg engine t s = ({ s with last_tap_time := t }, none) := by
  refine on_press_fresh_ignored cfg engine t s ?_ hrec
  rcases h with h | h
  · simp [h]
  · rintro ⟨-, h2⟩
    exact absurd h2 (not_le.mpr h)

/-- C3 witness: a key repeat at t = 12, outside the window of the press
at t = 10, leaves the recording state untouched except for the
bookkeeping field. -/
theorem c3_repeat_ignored_witness :
    ((7:ℚ)/20 < 12 - 10) ∧
    on_press defaultCfg engineNone 12 ⟨true, false, 10, 10, [[[1]]]⟩ =
      (⟨true, false, 12, 10, [[[1]]]⟩, none) :=
  ⟨by norm_num,
    c3_repeat_ignored defaultCfg engineNone 12 ⟨true, false, 10, 10, [[[1]]]⟩ rfl
      (Or.inr (by norm_num [defaultCfg, DOUBLE_TAP_WINDOW]))⟩

/- ----------------------------------------------------------------
C4 — double-tap latch cycle
---------------------------------------------------------------- -/

/-- C4 counterexample: presses at 10 and 10.2 latch; one frame is
captured; presses at 10.4 and 10.6 are a qualifying double-tap while
latched (0.2 s apart, inside the 0.35 s window) and do disarm — but they
do *not* drain the buffer: the whole cycle lasted 0.6 s < the 1.0 s
minimum hold, so `_stop_and_transcribe` returns before the drain loop
and the frame stays in the queue, contrary to "disarms the buffer and
drains it". -/
theorem c4_counterexample :
    ((53:ℚ)/5 - 52/5 ≤ 7/20) ∧
    (runEvents defaultCfg engineNone initSt
        [Ev.keyDown 10, Ev.keyDown (51/5), Ev.keyUp (103/10), Ev.frame [[1]],
         Ev.keyDown (52/5), Ev.keyDown (53/5)]).1.latched_on = false ∧
    (runEvents defaultCfg engineNone initSt
        [Ev.keyDown 10, Ev.keyDown (51/5), Ev.keyUp (103/10), Ev.frame [[1]],
         Ev.keyDown (52/5), Ev.keyDown (53/5)]).1.recording = false ∧
    (runEvents defaultCfg engineNone initSt
        [Ev.keyDown 10, Ev.keyDown (51/5), Ev.keyUp (103/10), Ev.frame [[1]],
         Ev.keyDown (52/5), Ev.keyDown (53/5)]).1.audio_q = [[[1]]] := by
  refine ⟨by norm_num, ?_, ?_, ?_⟩ <;>
    norm_num [runEvents, stepEv, on_press, on_release, stop_and_transcribe, start_recording,
      audio_callback, defaultCfg, DOUBLE_TAP_WINDOW, MIN_SPEECH_SECS, initSt]

/-- C4 (amended): two KeyDown of the hotkey within the double-tap
window (double-tap enabled) toggle the machine into Latched with the
buffer armed and recording active, no KeyUp required; a KeyUp while
Latched is a no-op; a later qualifying double-tap while Latched (two
presses while latched, the second within the window of the first)
disarms the buffer, and it drains the buffer provided the elapsed time
since arming is at least minSpeechSeconds (a shorter latched cycle
leaves the frames in the inactive queue until the next arm). -/
theorem c4_latch_cycle (cfg : Cfg) (engine : Engine) (s : St) (t1 t2 tu t3 t4 : ℚ)
    (frames : List Frame)
    (hen : cfg.double_tap_enabled = true)
    (hrec : s.recording = false) (hlat : s.latched_on = false)
    (h1 : cfg.double_tap_window < t1 - s.last_tap_time)
    (h2 : t2 - t1 ≤ cfg.double_tap_window)
    (h3 : cfg.double_tap_window < t3 - 0)
    (h4 : t4 - t3 ≤ cfg.double_tap_window) :
    let s2 := (on_press cfg engine t2 (on_press cfg engine t1 s).1).1
    let s4 := frames.foldl (fun st f => audio_callback f st) s2
    let r := on_press cfg engine t4 (on_press cfg engine t3 s4).1
    s2.latched_on = true ∧ s2.recording = true ∧ s2.pressed_time = t1 ∧
    on_release cfg engine tu s2 = (s2, none) ∧
    r.1.latched_on = false ∧ r.1.recording = false ∧
    (cfg.min_speech_secs ≤ t4 - t1 → r.1.audio_q = []) := by
  have hp1 : on_press cfg engine t1 s =
      (start_recording t1 { s with last_tap_time := t1 }, none) :=
    on_press_fresh_start cfg engine t1 s
      (by rintro ⟨-, hle⟩; exact absurd hle (not_le.mpr h1)) hrec
  have hp2 : on_press cfg engine t2 (start_recording t1 { s with last_tap_time := t1 }) =
      ({ s with
          last_tap_time := 0, latched_on := true, audio_q := [],
          recording := true, pressed_time := t1 }, none) := by
    rw [on_press_tap_latches cfg engine t2 _ ⟨hen, by simpa [start_recording] using h2⟩
      (by simp [start_recording]) (by simp [start_recording, hlat])]
    simp [start_recording]
  intro s2 s4 r
  have hs2 : s2 = { s with
      last_tap_time := 0, latched_on := true, audio_q := [],
      recording := true, pressed_time := t1 } := by
    show (on_press cfg engine t2 (on_press cfg engine t1 s).1).1 = _
    rw [hp1, hp2]
  have hfold : s4 = { s with
      last_tap_time := 0, latched_on := true, audio_q := frames,
      recording := true, pressed_time := t1 } := by
    show frames.foldl (fun st f => audio_callback f st) s2 = _
    rw [hs2, foldl_audio_callback _ _ (by simp)]
    simp
  have hp3 : on_press cfg engine t3 s4 =
      ({ s with
          last_tap_time := t3, latched_on := true, audio_q := frames,
          recording := true, pressed_time := t1 }, none) := by
    rw [hfold, on_press_fresh_ignored cfg engine t3 _
      (by rintro ⟨-, hle⟩; simp only at hle; exact absurd (by simpa using hle) (not_le.mpr h3))
      (by simp)]
  have hp4 : r = stop_and_transcribe cfg engine t4
      { s with
        last_tap_time := 0, latched_on := false, audio_q := frames,
        recording := true, pressed_time := t1 } := by
    show on_press cfg engine t4 (on_press cfg engine t3 s4).1 = _
    rw [hp3, on_press_tap_unlatches cfg engine t4 _ ⟨hen, by simpa using h4⟩ rfl rfl]
  refine ⟨by rw [hs2], by rw [hs2], by rw [hs2], ?_, ?_, ?_, ?_⟩
  · rw [on_release_latched_noop cfg engine tu s2 (by rw [hs2])]
  · rw [hp4]
    exact (stop_state_fields cfg engine t4 _).2.1
  · rw [hp4]
    exact (stop_state_fields cfg engine t4 _).1
  · intro hmin
    rw [hp4]
    exact stop_drains cfg engine t4 _ (by simpa using not_lt.mpr hmin)

/-- C4 witness: the amended theorem at the concrete cycle — taps at 10
and 10.2 latch, release at 10.3 is a no-op, a frame is captured, and the
double-tap at 11.2/11.4 (elapsed 1.4 s ≥ 1 s) disarms and drains. -/
theorem c4_latch_cycle_witness :
    (on_press defaultCfg engineNone (51/5)
        (on_press defaultCfg engineNone 10 initSt).1).1.latched_on = true ∧
    (on_press defaultCfg engineNone (51/5)
        (on_press defaultCfg engineNone 10 initSt).1).1.recording = true ∧
    ((1 : ℚ) ≤ 57/5 - 10) ∧
    (on_press defaultCfg engineNone (57/5)
        (on_press defaultCfg engineNone (56/5)
          ([[[1]]].foldl (fun st f => audio_callback f st)
            (on_press defaultCfg engineNone (51/5)
              (on_press defaultCfg engineNone 10 initSt).1).1)).1).1.audio_q = [] := by
  have h := c4_latch_cycle defaultCfg engineNone initSt 10 (51/5) (103/10) (56/5) (57/5)
    [[[1]]] rfl rfl rfl
    (by norm_num [defaultCfg, DOUBLE_TAP_WINDOW, initSt])
    (by norm_num [defaultCfg, DOUBLE_TAP_WINDOW])
    (by norm_num [defaultCfg, DOUBLE_TAP_WINDOW])
    (by norm_num [defaultCfg, DOUBLE_TAP_WINDOW])
  exact ⟨h.1, h.2.1, by norm_num,
    h.2.2.2.2.2.2 (by norm_num [defaultCfg, MIN_SPEECH_SECS])⟩

/- ----------------------------------------------------------------
C5 — the 0.8 s audio-duration gate
---------------------------------------------------------------- -/

/-- Assembling a single mono frame of `n` identical samples. -/
theorem assembleAudio_single_mono (n : ℕ) (q : ℚ) :
    assembleAudio [List.replicate n [q]] = List.replicate n q := by
  cases n with
  | zero => rfl
  | succ m =>
    rw [List.replicate_succ]
    unfold assembleAudio
    simp only [List.flatten_cons, List.flatten_nil, List.append_nil, List.headD_cons,
      List.length_cons, List.length_nil]
    rw [if_neg (by norm_num)]
    rw [List.map_cons, List.map_replicate]
    simp [List.replicate_succ]

/-- C5: for every drained frame sequence (a stop past the minimum-hold
gate with a non-empty queue), if the assembled audio's duration
`samples / SAMPLE_RATE` is shorter than 0.8 s, no utterance is emitted
and no transcription is performed — `transcribe_buffer` itself would
also return the empty transcript for such audio under *any* engine,
whatever the configured minimum-hold gate was — and if the duration is
at least 0.8 s the assembled utterance is handed to transcription. -/
theorem c5_audio_duration_gate (cfg : Cfg) (engine : Engine) (now : ℚ) (s : St)
    (hmin : ¬(now - s.pressed_time < cfg.min_speech_secs)) (hne : s.audio_q ≠ []) :
    (((assembleAudio s.audio_q).length : ℚ) / SAMPLE_RATE < 4/5 →
      (stop_and_transcribe cfg engine now s).2 = none ∧
      ∀ e2 : Engine, transcribe_buffer e2 (assembleAudio s.audio_q) = []) ∧
    (¬(((assembleAudio s.audio_q).length : ℚ) / SAMPLE_RATE < 4/5) →
      (stop_and_transcribe cfg engine now s).2 =
        some (assembleAudio s.audio_q,
          format_transcript (transcribe_buffer engine (assembleAudio s.audio_q)))) := by
  constructor
  · intro hshort
    constructor
    · simp only [stop_and_transcribe]
      rw [if_neg (by simpa using hmin), if_neg (by simpa using hne),
        if_pos (by simpa using hshort)]
    · intro e2
      simp only [transcribe_buffer]
      split_ifs with h1 <;> rfl
  · intro hlong
    simp only [stop_and_transcribe]
    rw [if_neg (by simpa using hmin), if_neg (by simpa using hne),
      if_neg (by simpa using hlong)]

/-- C5 witness: a 2-sample drain (0.000125 s) is dropped with no engine
consulted; a 12800-sample drain (exactly 0.8 s) is handed to
transcription. -/
theorem c5_audio_duration_gate_witness :
    (stop_and_transcribe defaultCfg engineNone 2
        ⟨true, false, 0, 0, [List.replicate 2 [0]]⟩).2 = none ∧
    transcribe_buffer engineNone (assembleAudio [List.replicate 2 [0]]) = [] ∧
    (stop_and_transcribe defaultCfg engineNone 2
        ⟨true, false, 0, 0, [List.replicate 12800 [0]]⟩).2 =
      some (assembleAudio [List.replicate 12800 [0]],
        format_transcript
          (transcribe_buffer engineNone (assembleAudio [List.replicate 12800 [0]]))) := by
  have hshort : ((assembleAudio [List.replicate 2 [(0:ℚ)]]).length : ℚ) / SAMPLE_RATE < 4/5 := by
    rw [assembleAudio_single_mono]
    norm_num [SAMPLE_RATE]
  have hlong : ¬(((assembleAudio [List.replicate 12800 [(0:ℚ)]]).length : ℚ) / SAMPLE_RATE
      < 4/5) := by
    rw [assembleAudio_single_mono]
    norm_num [SAMPLE_RATE]
  have h1 := c5_audio_duration_gate defaultCfg engineNone 2
    ⟨true, false, 0, 0, [List.replicate 2 [0]]⟩
    (by norm_num [defaultCfg, MIN_SPEECH_SECS]) (by simp)
  have h2 := c5_audio_duration_gate defaultCfg engineNone 2
    ⟨true, false, 0, 0, [List.replicate 12800 [0]]⟩
    (by norm_num [defaultCfg, MIN_SPEECH_SECS]) (by exact List.cons_ne_nil _ _)
  exact ⟨(h1.1 hshort).1, (h1.1 hshort).2 engineNone, h2.2 hlong⟩

/- ----------------------------------------------------------------
C7 — utterance assembly
---------------------------------------------------------------- -/

/-- C7: for every drained frame sequence whose samples all carry `c`
channels, assembly concatenates the frames preserving arrival order
(one output sample per input sample, same positions); with more than
one channel the k-th output sample is the mean of the k-th input
sample's channels; with a single channel the k-th input sample passes
through unchanged; the result is the flat array `assembleAudio`. -/
theorem c7_assemble_concat_mean (chunks : List Frame) (c : ℕ) (hc : 0 < c)
    (hw : ∀ r ∈ chunks.flatten, r.length = c) :
    (assembleAudio chunks).length = chunks.flatten.length ∧
    (1 < c → ∀ k, (hk : k < chunks.flatten.length) →
      (assembleAudio chunks).getD k 0 = (chunks.flatten.getD k []).sum / (c : ℚ)) ∧
    (c = 1 → ∀ k, (hk : k < chunks.flatten.length) →
      (assembleAudio chunks).getD k 0 = (chunks.flatten.getD k []).headD 0) := by
  have hgetmap : ∀ (f : List ℚ → ℚ) (k : ℕ), k < chunks.flatten.length →
      ((chunks.flatten.map f).getD k 0 = f (chunks.flatten.getD k [])) := by
    intro f k hk
    rw [List.getD_eq_getElem _ _ (by rw [List.length_map]; exact hk),
      List.getD_eq_getElem _ _ hk, List.getElem_map]
  have hchan : chunks.flatten ≠ [] → ((chunks.flatten.headD []).length) = c := by
    intro hne
    cases h : chunks.flatten with
    | nil => exact absurd h hne
    | cons r rest =>
      rw [List.headD_cons]
      exact hw r (by rw [h]; exact List.mem_cons_self r rest)
  by_cases hnil : chunks.flatten = []
  · unfold assembleAudio
    rw [hnil]
    simp
  · by_cases h1 : 1 < c
    · have hif : assembleAudio chunks =
          chunks.flatten.map (fun r => r.sum / (r.length : ℚ)) := by
        unfold assembleAudio
        rw [if_pos (by rw [hchan hnil]; exact h1)]
      refine ⟨by rw [hif, List.length_map], ?_, ?_⟩
      · intro _ k hk
        rw [hif, hgetmap _ k hk]
        rw [hw (chunks.flatten.getD k []) (by
          rw [List.getD_eq_getElem _ _ hk]
          exact List.getElem_mem hk)]
      · intro hc1
        exact absurd hc1 (by omega)
    · have hc1 : c = 1 := by omega
      have hif : assembleAudio chunks = chunks.flatten.map (fun r => r.headD 0) := by
        unfold assembleAudio
        rw [if_neg (by rw [hchan hnil]; exact h1)]
      refine ⟨by rw [hif, List.length_map], fun h => absurd h h1, ?_⟩
      · intro _ k hk
        rw [hif, hgetmap _ k hk]

/-- C7 witness: one stereo frame of two samples averages channel pairs
(1,3) and (2,4) to 2 and 3; one mono frame passes its samples through. -/
theorem c7_assemble_concat_mean_witness :
    (assembleAudio [[[1, 3], [2, 4]]]).length = 2 ∧
    (assembleAudio [[[1, 3], [2, 4]]]).getD 0 0 =
      (([[[(1:ℚ), 3], [2, 4]]] : List Frame).flatten.getD 0 []).sum / (2 : ℚ) ∧
    (assembleAudio [[[5], [7]]]).getD 1 0 =
      (([[[(5:ℚ)], [7]]] : List Frame).flatten.getD 1 []).headD 0 := by
  have hs := c7_assemble_concat_mean [[[1, 3], [2, 4]]] 2 (by norm_num) (by
    intro r hr
    simp at hr
    rcases hr with h | h <;> simp [h])
  have hm := c7_assemble_concat_mean [[[5], [7]]] 1 (by norm_num) (by
    intro r hr
    simp at hr
    rcases hr with h | h <;> simp [h])
  refine ⟨by simpa using hs.1, ?_, ?_⟩
  · have := hs.2.1 (by norm_num) 0 (by simp)
    simpa using this
  · have := hm.2.2 rfl 1 (by simp)
    simpa using this

/- ----------------------------------------------------------------
C8 — transcription failure
---------------------------------------------------------------- -/

/-- C8: a transcription-engine failure is caught inside
`transcribe_buffer` and treated as the empty transcript; the state
produced by the stop handler does not depend on the engine at all, the
recording flag is cleared, and any utterance emitted under a failing
engine carries the empty formatted text — so the state machine is
untouched and ready for the next gesture. -/
theorem c8_engine_failure_empty (cfg : Cfg) (e1 e2 : Engine) (now : ℚ) (s : St) :
    (∀ pcm, e1 pcm = none → transcribe_buffer e1 pcm = []) ∧
    (stop_and_transcribe cfg e1 now s).1 = (stop_and_transcribe cfg e2 now s).1 ∧
    (stop_and_transcribe cfg e1 now s).1.recording = false ∧
    (e1 (assembleAudio s.audio_q) = none →
      ∀ o ∈ (stop_and_transcribe cfg e1 now s).2, o.2 = []) := by
  have htb : ∀ pcm, e1 pcm = none → transcribe_buffer e1 pcm = [] := by
    intro pcm hfail
    simp only [transcribe_buffer]
    split_ifs with h1 h2
    · rfl
    · rfl
    · rw [hfail]
  refine ⟨htb, ?_, (stop_state_fields cfg e1 now s).1, ?_⟩
  · simp only [stop_and_transcribe]
    split_ifs <;> rfl
  · intro hfail o ho
    simp only [stop_and_transcribe] at ho
    split_ifs at ho with h1 h2 h3
    · exact absurd ho (by simp)
    · exact absurd ho (by simp)
    · exact absurd ho (by simp)
    · simp only [Option.mem_def, Option.some_inj] at ho
      rw [← ho]
      rw [htb _ hfail]
      rfl

/-- C8 witness: with an always-failing engine and a 12800-sample drain,
the transcript is empty, the resulting state equals the one a working
engine would leave, the flag is clear, and the emitted utterance carries
empty text. -/
theorem c8_engine_failure_empty_witness :
    transcribe_buffer engineNone [0] = [] ∧
    (stop_and_transcribe defaultCfg engineNone 2
        ⟨true, false, 0, 0, [List.replicate 12800 [0]]⟩).1 =
      (stop_and_transcribe defaultCfg (fun _ => some [[' ']]) 2
        ⟨true, false, 0, 0, [List.replicate 12800 [0]]⟩).1 ∧
    (stop_and_transcribe defaultCfg engineNone 2
        ⟨true, false, 0, 0, [List.replicate 12800 [0]]⟩).1.recording = false ∧
    (∀ o ∈ (stop_and_transcribe defaultCfg engineNone 2
        ⟨true, false, 0, 0, [List.replicate 12800 [0]]⟩).2, o.2 = []) := by
  have h := c8_engine_failure_empty defaultCfg engineNone (fun _ => some [[' ']]) 2
    ⟨true, false, 0, 0, [List.replicate 12800 [0]]⟩
  exact ⟨h.1 [0] rfl, h.2.1, h.2.2.1, h.2.2.2 rfl⟩

/- ----------------------------------------------------------------
C9 — paste-sink application filter
---------------------------------------------------------------- -/

/-- C9: in the paste sink's filter, an undetermined (empty) frontmost
name always allows pasting; a non-empty allow list decides by allow-list
membership alone, the deny list being ignored entirely; with an empty
allow list and a non-empty deny list the name must not be denied; with
both lists empty pasting is always allowed. -/
theorem c9_front_app_filter (name a d : List Char) :
    (is_front_app_allowed [] a d = true) ∧
    (name ≠ [] → parse_app_list a ≠ [] →
      (is_front_app_allowed name a d = (parse_app_list a).contains name ∧
       ∀ d2, is_front_app_allowed name a d2 = is_front_app_allowed name a d)) ∧
    (name ≠ [] → parse_app_list a = [] → parse_app_list d ≠ [] →
      is_front_app_allowed name a d = !((parse_app_list d).contains name)) ∧
    (name ≠ [] → parse_app_list a = [] → parse_app_list d = [] →
      is_front_app_allowed name a d = true) := by
  refine ⟨by simp [is_front_app_allowed], ?_, ?_, ?_⟩
  · intro hn ha
    have hall : (parse_app_list a).isEmpty = false := by
      simpa [List.isEmpty_iff] using ha
    constructor
    · simp [is_front_app_allowed, hn, hall]
    · intro d2
      simp [is_front_app_allowed, hn, hall]
  · intro hn ha hd
    have hden : (parse_app_list d).isEmpty = false := by
      simpa [List.isEmpty_iff] using hd
    simp [is_front_app_allowed, hn, ha, hden]
  · intro hn ha hd
    simp [is_front_app_allowed, hn, ha, hd]

/-- C9 witness: the filter at concrete configurations — empty name with
a deny list, an allow list that wins over a deny list, a deny list
alone, and no lists at all. -/
theorem c9_front_app_filter_witness :
    is_front_app_allowed [] (("Notes").data) (("Notes").data) = true ∧
    is_front_app_allowed (("Notes").data) (("Notes, Mail").data) (("Notes").data) =
      (parse_app_list (("Notes, Mail").data)).contains (("Notes").data) ∧
    is_front_app_allowed (("Slack").data) ([]) (("Slack, Zoom").data) =
      !((parse_app_list (("Slack, Zoom").data)).contains (("Slack").data)) ∧
    is_front_app_allowed (("Mail").data) ([]) ([]) = true := by
  refine ⟨(c9_front_app_filter [] (("Notes").data) (("Notes").data)).1, ?_, ?_, ?_⟩
  · exact ((c9_front_app_filter (("Notes").data) (("Notes, Mail").data)
      (("Notes").data)).2.1 (by decide) (by decide)).1
  · exact (c9_front_app_filter (("Slack").data) ([]) (("Slack, Zoom").data)).2.2.1
      (by decide) (by decide) (by decide)
  · exact (c9_front_app_filter (("Mail").data) ([]) ([])).2.2.2
      (by decide) (by decide) (by decide)

/- ----------------------------------------------------------------
C10 — whitespace normalization kills spoken-command newlines
---------------------------------------------------------------- -/

/-- Every character emitted by the whitespace-collapsing pass is either
the single space standing for a run or a non-whitespace input
character. -/
theorem mem_collapseWSAux : ∀ (l : List Char) (prev : Bool) (c : Char),
    c ∈ collapseWSAux prev l → c = ' ' ∨ pySpace c = false := by
  intro l
  induction l with
  | nil =>
    intro prev c h
    simp [collapseWSAux] at h
  | cons x rest ih =>
    intro prev c h
    simp only [collapseWSAux] at h
    by_cases hx : pySpace x
    · rw [if_pos hx] at h
      by_cases hp : prev = true
      · rw [if_pos hp] at h
        exact ih true c h
      · rw [if_neg hp] at h
        rcases List.mem_cons.mp h with h | h
        · exact Or.inl h
        · exact ih true c h
    · rw [if_neg hx] at h
      rcases List.mem_cons.mp h with h | h
      · subst h
        exact Or.inr (by simpa using hx)
      · exact ih false c h

/-- Stripping only removes characters. -/
theorem mem_pyStrip (l : List Char) (c : Char) (h : c ∈ pyStrip l) : c ∈ l :=
  List.Sublist.mem
    (List.mem_reverse.mp
      (List.Sublist.mem (List.mem_reverse.mp h) (List.dropWhile_sublist pySpace)))
    (List.dropWhile_sublist pySpace)

/-- The space-before-punctuation pass only re-emits characters of its
pending run or of its input. -/
theorem mem_squashAux : ∀ (l pend : List Char) (c : Char),
    c ∈ squashAux pend l → c ∈ pend ∨ c ∈ l := by
  intro l
  induction l with
  | nil =>
    intro pend c h
    simp only [squashAux] at h
    exact Or.inl h
  | cons x rest ih =>
    intro pend c h
    simp only [squashAux] at h
    by_cases hx : pySpace x
    · rw [if_pos hx] at h
      rcases ih _ c h with h | h
      · rcases List.mem_append.mp h with h | h
        · exact Or.inl h
        · simp only [List.mem_singleton] at h
          exact Or.inr (by rw [h]; exact List.mem_cons_self x rest)
      · exact Or.inr (List.mem_cons_of_mem _ h)
    · rw [if_neg hx] at h
      by_cases hp : isPunct x
      · rw [if_pos hp] at h
        rcases List.mem_cons.mp h with h | h
        · exact Or.inr (by rw [h]; exact List.mem_cons_self x rest)
        · rcases ih [] c h with h | h
          · simp at h
          · exact Or.inr (List.mem_cons_of_mem _ h)
      · rw [if_neg hp] at h
        rcases List.mem_append.mp h with h | h
        · exact Or.inl h
        · rcases List.mem_cons.mp h with h | h
          · exact Or.inr (by rw [h]; exact List.mem_cons_self x rest)
          · rcases ih [] c h with h | h
            · simp at h
            · exact Or.inr (List.mem_cons_of_mem _ h)

/-- `_normalize_whitespace` never outputs a newline: every whitespace
run — newlines included — has been replaced by a single space. -/
theorem normalize_no_newline (l : List Char) : '\n' ∉ normalize_whitespace l := by
  intro h
  unfold normalize_whitespace squashWSPunct at h
  rcases mem_squashAux _ [] '\n' h with h | h
  · simp at h
  · have h2 := mem_pyStrip _ _ h
    unfold collapseWS at h2
    rcases mem_collapseWSAux _ false '\n' h2 with h3 | h3
    · exact absurd h3 (by decide)
    · exact absurd h3 (by decide)

/-- A newline-free text contains no blank line. -/
theorem hasDoubleNL_eq_false : ∀ (l : List Char), '\n' ∉ l → hasDoubleNL l = false := by
  intro l
  induction l with
  | nil => intro _; rfl
  | cons x rest ih =>
    intro h
    cases rest with
    | nil => rfl
    | cons y rest2 =>
      simp only [hasDoubleNL]
      have hx : (x == '\n') = false := by
        have : x ≠ '\n' := fun he => h (by rw [he]; exact List.mem_cons_self _ _)
        simpa using this
      rw [hx, Bool.false_and, Bool.false_or]
      exact ih fun hm => h (List.mem_cons_of_mem _ hm)

/-- Every character of every piece produced by the sentence splitter
comes from the pending piece or from the input. -/
theorem mem_sentSplitAux : ∀ (l : List Char) (skipping : Bool) (cur : List Char)
    (p : List Char), p ∈ sentSplitAux skipping cur l → ∀ c ∈ p, c ∈ cur ∨ c ∈ l := by
  intro l
  induction l with
  | nil =>
    intro skipping cur p hp c hc
    simp only [sentSplitAux, List.mem_singleton] at hp
    subst hp
    exact Or.inl (List.mem_reverse.mp hc)
  | cons x rest ih =>
    intro skipping cur p hp c hc
    simp only [sentSplitAux] at hp
    split_ifs at hp with h1 h2
    · rcases ih true cur p hp c hc with h | h
      · exact Or.inl h
      · exact Or.inr (List.mem_cons_of_mem _ h)
    · rcases List.mem_cons.mp hp with h | h
      · subst h
        exact Or.inl (List.mem_reverse.mp hc)
      · rcases ih true [] p h c hc with h | h
        · simp at h
        · exact Or.inr (List.mem_cons_of_mem _ h)
    · rcases ih false (x :: cur) p hp c hc with h | h
      · rcases List.mem_cons.mp h with h | h
        · exact Or.inr (by rw [h]; exact List.mem_cons_self x rest)
        · exact Or.inl h
      · exact Or.inr (List.mem_cons_of_mem _ h)

/-- Every sentence placed in a paragraph group by the grouping loop
comes from the pending buffer or from the input sentences. -/
theorem mem_groupAux : ∀ (l : List (List Char)) (buf : List (List Char)) (cnt : ℕ)
    (g : List (List Char)), g ∈ groupAux buf cnt l → ∀ s ∈ g, s ∈ buf ∨ s ∈ l := by
  intro l
  induction l with
  | nil =>
    intro buf cnt g hg s hs
    simp only [groupAux] at hg
    split_ifs at hg with h
    · simp at hg
    · simp only [List.mem_singleton] at hg
      subst hg
      exact Or.inl hs
  | cons t rest ih =>
    intro buf cnt g hg s hs
    simp only [groupAux] at hg
    split_ifs at hg with h
    · rcases List.mem_cons.mp hg with h2 | h2
      · subst h2
        rcases List.mem_append.mp hs with h3 | h3
        · exact Or.inl h3
        · simp only [List.mem_singleton] at h3
          exact Or.inr (by rw [h3]; exact List.mem_cons_self t rest)
      · rcases ih [] 0 g h2 s hs with h3 | h3
        · simp at h3
        · exact Or.inr (List.mem_cons_of_mem _ h3)
    · rcases ih _ _ g hg s hs with h3 | h3
      · rcases List.mem_append.mp h3 with h4 | h4
        · exact Or.inl h4
        · simp only [List.mem_singleton] at h4
          exact Or.inr (by rw [h4]; exact List.mem_cons_self t rest)
      · exact Or.inr (List.mem_cons_of_mem _ h3)

/-- A character of an intercalation comes from the separator or from one
of the pieces. -/
theorem mem_intercalate_cases (sep : List Char) : ∀ (xss : List (List Char)) (c : Char),
    c ∈ List.intercalate sep xss → c ∈ sep ∨ ∃ xs ∈ xss, c ∈ xs := by
  intro xss
  induction xss with
  | nil =>
    intro c h
    simp [List.intercalate] at h
  | cons x rest ih =>
    cases rest with
    | nil =>
      intro c h
      simp only [List.intercalate, List.intersperse_single, List.flatten_cons,
        List.flatten_nil, List.append_nil] at h
      exact Or.inr ⟨x, List.mem_cons_self x [], h⟩
    | cons y rest2 =>
      intro c h
      have hstep : List.intercalate sep (x :: y :: rest2) =
          x ++ sep ++ List.intercalate sep (y :: rest2) := by
        simp [List.intercalate, List.intersperse_cons_cons, List.append_assoc]
      rw [hstep] at h
      rcases List.mem_append.mp h with h | h
      · rcases List.mem_append.mp h with h | h
        · exact Or.inr ⟨x, List.mem_cons_self x _, h⟩
        · exact Or.inl h
      · rcases ih c h with h | h
        · exact Or.inl h
        · rcases h with ⟨xs, hxs, hc⟩
          exact Or.inr ⟨xs, List.mem_cons_of_mem _ hxs, hc⟩

/-- Every character of every sentence of `sentencesOf` is a character of
the input. -/
theorem mem_sentencesOf (l : List Char) (s : List Char) (hs : s ∈ sentencesOf l) :
    ∀ c ∈ s, c ∈ l := by
  intro c hc
  unfold sentencesOf at hs
  have hs2 := (List.mem_filter.mp hs).1
  rcases List.mem_map.mp hs2 with ⟨p, hp, rfl⟩
  have hcp := mem_pyStrip p c hc
  unfold sentSplit at hp
  rcases mem_sentSplitAux l false [] p hp c hcp with h | h
  · simp at h
  · exact h

/-- With newline-free input, every paragraph the grouping heuristic
builds is newline-free. -/
theorem paragraphsOf_no_newline (l : List Char) (hl : '\n' ∉ l) :
    ∀ p ∈ paragraphsOf l, '\n' ∉ p := by
  intro p hp hmem
  unfold paragraphsOf at hp
  split_ifs at hp with hs
  · simp only [List.mem_singleton] at hp
    subst hp
    exact hl hmem
  · rcases List.mem_map.mp hp with ⟨g, hg, rfl⟩
    rcases mem_intercalate_cases [' '] g '\n' hmem with h | ⟨s, hsg, hcs⟩
    · simp at h
    · unfold groupSentences at hg
      have hsent : s ∈ sentencesOf l := by
        rcases mem_groupAux _ [] 0 g hg s hsg with h | h
        · simp at h
        · exact h
      exact hl (mem_sentencesOf l s hsent '\n' hcs)

/-- On blank-line-free input, `_auto_paragraph` is exactly the
intercalation of its paragraph groups with blank lines. -/
theorem auto_paragraph_eq_intercalate (l : List Char) (h : hasDoubleNL l = false) :
    auto_paragraph l = List.intercalate ['\n', '\n'] (paragraphsOf l) := by
  unfold auto_paragraph paragraphsOf
  rw [if_neg (by simp [h])]
  by_cases hs : sentencesOf l = []
  · rw [if_pos hs, if_pos hs]
    simp [List.intercalate]
  · rw [if_neg hs, if_neg hs]

/-- A list not containing the newline character reports
`contains = false`. -/
theorem contains_nl_eq_false (l : List Char) (h : '\n' ∉ l) : l.contains '\n' = false := by
  cases hcon : l.contains '\n' with
  | false => rfl
  | true => exact absurd (List.elem_iff.mp hcon) h

/-- C10: `format_transcript` runs whitespace normalization after
spoken-command substitution (and filler removal) and before paragraph
grouping, and that normalization replaces every whitespace run —
newlines included — by a single space; hence the text reaching
`_auto_paragraph` contains no newline (the newlines inserted for spoken
commands such as "new line" and "new paragraph" never survive), and the
final output is exactly the blank-line intercalation of the
sentence-grouping heuristic's paragraphs, each itself newline-free — so
every paragraph break comes solely from the grouping heuristic. -/
theorem c10_breaks_only_from_grouping (text : List Char) :
    ((normText text).contains '\n') = false ∧
    format_transcript text = List.intercalate ['\n', '\n'] (paragraphsOf (normText text)) ∧
    ((paragraphsOf (normText text)).all fun p => !(p.contains '\n')) = true := by
  have hnn : '\n' ∉ normText text := normalize_no_newline _
  refine ⟨contains_nl_eq_false _ hnn, ?_, ?_⟩
  · unfold format_transcript
    by_cases ht : text = []
    · rw [if_pos ht, ht]
      rfl
    · rw [if_neg ht]
      exact auto_paragraph_eq_intercalate _ (hasDoubleNL_eq_false _ hnn)
  · rw [List.all_eq_true]
    intro p hp
    have hpn := paragraphsOf_no_newline (normText text) hnn p hp
    rw [contains_nl_eq_false p hpn]
    rfl
